import Mathlib

/-!
Shallow embedding of the auto-editor core: the chunk-driven variable-speed audio
reconstruction engine (`fastAudio.py`), the timeline aggregate (`timeline.py`)
and the FCP7 timebase encoding (`formats/fcp7.py`).

Python numeric semantics are modelled with exact rationals: `int(x)` is
truncation toward zero (`pyInt`), `round(x)` is round-half-to-even (`pyRound`).
Python list slicing and numpy slice assignment are modelled explicitly
(`pySlice`, `pyWriteSlice`).  Audio samples are modelled as integers; a stereo
sample row is one list element, so byte-for-byte equality of buffers is list
equality.  The external phase vocoder (audiotsm2) is passed in as an arbitrary
function, since the engine only forwards blocks to it and never relies on its
output length for cursor arithmetic.
-/

namespace AutoEditor

/-- Python int() applied to an exact rational: truncation toward zero. -/
def pyInt (q : ℚ) : ℤ := if 0 ≤ q then ⌊q⌋ else ⌈q⌉

/-- Python round() applied to an exact rational: round half to even. -/
def pyRound (q : ℚ) : ℤ :=
  if q - ⌊q⌋ < 1/2 then ⌊q⌋
  else if (1:ℚ)/2 < q - ⌊q⌋ then ⌊q⌋ + 1
  else if ⌊q⌋ % 2 = 0 then ⌊q⌋ else ⌊q⌋ + 1

/-- Python slice-index normalisation for a sequence of length `len`: a negative
index counts from the end, and the result is clamped into `[0, len]`. -/
def pyIdx (len : ℕ) (i : ℤ) : ℕ :=
  (min (max (if i < 0 then i + len else i) 0) (len : ℤ)).toNat

/-- Python slice `l[i:j]` (step 1): elements from index `pyIdx i` up to
exclusive `pyIdx j`; empty when the bounds cross. -/
def pySlice {α : Type} (l : List α) (i j : ℤ) : List α :=
  (l.take (pyIdx l.length j)).drop (pyIdx l.length i)

/-- numpy slice assignment `buf[i:j] = repl` for 2-channel rows: the
replacement must have exactly the slice length, or be a single row which
broadcasts across the slice; any other shape raises and is modelled as
`none`. -/
def pyWriteSlice (buf : List ℤ) (i j : ℤ) (repl : List ℤ) : Option (List ℤ) :=
  let a := pyIdx buf.length i
  let b := max a (pyIdx buf.length j)
  if repl.length = b - a then
    some (buf.take a ++ repl ++ buf.drop b)
  else if repl.length = 1 then
    some (buf.take a ++ List.replicate (b - a) (repl.headD 0) ++ buf.drop b)
  else none

/-- Loop state of the reconstruction loop in `fastAudio`: the write cursor
`yPointer` and the output buffer `newAudio`. -/
structure FAState where
  y : ℤ
  buf : List ℤ
deriving DecidableEq

instance {ε α : Type} [DecidableEq ε] [DecidableEq α] :
    DecidableEq (Except ε α) := fun a b =>
  match a, b with
  | .error e, .error f =>
    if h : e = f then isTrue (by rw [h])
    else isFalse (fun hh => h (by injection hh))
  | .error _, .ok _ => isFalse (fun hh => Except.noConfusion hh)
  | .ok _, .error _ => isFalse (fun hh => Except.noConfusion hh)
  | .ok x, .ok y =>
    if h : x = y then isTrue (by rw [h])
    else isFalse (fun hh => h (by injection hh))

/-- Modelled from the spec: the frame-length accumulation loop of
`getNewLength` (see `getNewLength` below), summing over non-dropped chunks
the chunk frame length weighted by the reciprocal of its speed. -/
def newFrameLength : List (ℕ × ℕ × ℕ) → List ℚ → ℚ
  | [], _ => 0
  | c :: rest, speeds =>
    (if speeds.getD c.2.2 0 ≠ 99999 then
      ((c.2.1 : ℚ) - (c.1 : ℚ)) * (1 / speeds.getD c.2.2 0)
    else 0) + newFrameLength rest speeds

/-- Modelled from the spec: `getNewLength` (imported by `fastAudio.py` from
`usefulFunctions`, a module that is not part of this repository snapshot) is
the output-length estimator.  Per the spec it receives the chunk schedule, the
speed table and the frame rate and returns the expected output duration, the
sum over non-dropped chunks of the chunk frame length divided by its speed,
converted to seconds by the frame rate; it is used only to size the
pre-allocation margin (`newL * samplerate` in the caller yields samples). -/
def getNewLength (chunks : List (ℕ × ℕ × ℕ)) (speeds : List ℚ) (fps : ℚ) : ℚ :=
  newFrameLength chunks speeds / fps

/-- One iteration of the chunk loop of `fastAudio` (fastAudio.py lines 66-98):
convert the chunk frame range to a source sample range, look up the speed,
skip the chunk when the speed is the drop sentinel 99999, otherwise write the
(possibly time-stretched) block at the cursor and advance the cursor by the
analytically computed sample count.  `stretch` is the external phase-vocoder
pipeline (ArrReader/phasevocoder/ArrWriter) as a black-box function. -/
def chunkStep (stretch : List ℤ → ℚ → List ℤ) (audioData : List ℤ)
    (speeds : List ℚ) (fps : ℚ) (samplerate : ℕ)
    (st : FAState) (chunk : ℕ × ℕ × ℕ) : Except String FAState :=
  let audioSampleStart : ℤ := pyInt ((chunk.1 : ℚ) / fps * samplerate)
  let audioSampleEnd : ℤ :=
    pyInt ((audioSampleStart : ℚ) + ((samplerate : ℚ) / fps) * ((chunk.2.1 : ℚ) - (chunk.1 : ℚ)))
  match speeds[chunk.2.2]? with
  | none => .error "IndexError: list index out of range"
  | some theSpeed =>
    if theSpeed ≠ 99999 then
      let spedChunk := pySlice audioData audioSampleStart audioSampleEnd
      let sped := if theSpeed = 1 then spedChunk else stretch spedChunk theSpeed
      match pyWriteSlice st.buf st.y (st.y + sped.length) sped with
      | none => .error "ValueError: could not broadcast"
      | some buf =>
        let myL : ℚ := (chunk.2.1 : ℚ) - (chunk.1 : ℚ)
        let mySamples : ℚ := myL / fps * samplerate
        let newSamples : ℤ := pyInt (mySamples / theSpeed)
        .ok ⟨st.y + newSamples, buf⟩
    else
      .ok st

/-- The chunk loop of `fastAudio`, strictly in schedule order, aborting on the
first error. -/
def runChunks (stretch : List ℤ → ℚ → List ℤ) (audioData : List ℤ)
    (speeds : List ℚ) (fps : ℚ) (samplerate : ℕ) :
    FAState → List (ℕ × ℕ × ℕ) → Except String FAState
  | st, [] => .ok st
  | st, c :: rest =>
    match chunkStep stretch audioData speeds fps samplerate st c with
    | .error e => .error e
    | .ok st2 => runChunks stretch audioData speeds fps samplerate st2 rest

/-- The audio reconstruction engine `fastAudio` (fastAudio.py lines 33-104).
The wav read is modelled by passing `samplerate` and `audioData` directly; the
result models the `(samplerate, truncated buffer)` pair handed to `write`.
`log.error` aborts the run and is modelled as `Except.error`.  The single
chunk guard (line 48) fires before the audio data is touched.  `np.zeros`
requires a nonnegative dimension, hence the `toNat` on the estimate. -/
def fastAudio (stretch : List ℤ → ℚ → List ℤ) (chunks : List (ℕ × ℕ × ℕ))
    (speeds : List ℚ) (fps : ℚ) (samplerate : ℕ) (audioData : List ℤ) :
    Except String (ℕ × List ℤ) :=
  if chunks.length = 1 ∧ (chunks.head?.map (fun c => c.2.2)) = some 0 then
    .error "Trying to create an empty file."
  else
    let newL := getNewLength chunks speeds fps
    let estLeng : ℕ := (pyInt (newL * samplerate * (3/2))).toNat + 2 * samplerate
    match runChunks stretch audioData speeds fps samplerate
        ⟨0, List.replicate estLeng 0⟩ chunks with
    | .error e => .error e
    | .ok st => .ok (samplerate, pySlice st.buf 0 st.y)

/-- The cursor advance of `fastAudio` for one chunk: a dropped chunk advances
by zero, any other chunk by `int(((end - start) / fps * samplerate) / speed)`
(an out-of-range speed index aborts the run before any advance, so its value
here is irrelevant and set to zero). -/
def chunkAdvance (speeds : List ℚ) (fps : ℚ) (samplerate : ℕ)
    (c : ℕ × ℕ × ℕ) : ℤ :=
  match speeds[c.2.2]? with
  | none => 0
  | some sp =>
    if sp ≠ 99999 then
      pyInt ((((c.2.1 : ℚ) - (c.1 : ℚ)) / fps * samplerate) / sp)
    else 0

/-- Sum over the chunk schedule of the per-chunk cursor advances of
`fastAudio`. -/
def sumAdvances (chunks : List (ℕ × ℕ × ℕ)) (speeds : List ℚ) (fps : ℚ)
    (samplerate : ℕ) : ℤ :=
  match chunks with
  | [] => 0
  | c :: rest => chunkAdvance speeds fps samplerate c
      + sumAdvances rest speeds fps samplerate

/-! Basic facts about the Python numeric and slicing primitives. -/

theorem pyInt_of_nonneg {q : ℚ} (h : 0 ≤ q) : pyInt q = ⌊q⌋ := by
  simp [pyInt, h]

theorem pyInt_zero : pyInt 0 = 0 := by simp [pyInt]

theorem pyInt_intCast (n : ℤ) : pyInt (n : ℚ) = n := by
  unfold pyInt
  split
  · exact Int.floor_intCast n
  · exact Int.ceil_intCast n

theorem pyInt_nonneg {q : ℚ} (h : 0 ≤ q) : 0 ≤ pyInt q := by
  rw [pyInt_of_nonneg h]
  exact Int.floor_nonneg.mpr h

theorem pyInt_le {q : ℚ} (h : 0 ≤ q) : (pyInt q : ℚ) ≤ q := by
  rw [pyInt_of_nonneg h]
  exact Int.floor_le q

theorem pyInt_int_add {n : ℤ} (q : ℚ) (hn : 0 ≤ n) (hq : 0 ≤ q) :
    pyInt ((n : ℚ) + q) = n + pyInt q := by
  rw [pyInt_of_nonneg (by positivity), pyInt_of_nonneg hq, Int.floor_int_add]

theorem pyIdx_le (len : ℕ) (i : ℤ) : pyIdx len i ≤ len := by
  simp only [pyIdx]
  omega

theorem pyIdx_zero (len : ℕ) : pyIdx len 0 = 0 := by
  simp [pyIdx]

theorem pyIdx_of_nonneg_le {len : ℕ} {i : ℤ} (h0 : 0 ≤ i) (h : i ≤ len) :
    pyIdx len i = i.toNat := by
  simp only [pyIdx]
  omega

theorem pySlice_length {α : Type} (l : List α) (i j : ℤ) :
    (pySlice l i j).length = pyIdx l.length j - pyIdx l.length i := by
  have := pyIdx_le l.length j
  simp only [pySlice, List.length_drop, List.length_take]
  omega

theorem pySlice_zero {α : Type} (l : List α) (j : ℤ) (h0 : 0 ≤ j)
    (h : j ≤ l.length) : pySlice l 0 j = l.take j.toNat := by
  simp [pySlice, pyIdx_zero, pyIdx_of_nonneg_le h0 h]

theorem pyWriteSlice_exact {buf repl : List ℤ} {y : ℤ} (hy : 0 ≤ y)
    (hle : y.toNat + repl.length ≤ buf.length) :
    pyWriteSlice buf y (y + repl.length) repl
      = some (buf.take y.toNat ++ repl ++ buf.drop (y.toNat + repl.length)) := by
  have ha : pyIdx buf.length y = y.toNat := pyIdx_of_nonneg_le hy (by omega)
  have hb : pyIdx buf.length (y + repl.length) = y.toNat + repl.length := by
    rw [pyIdx_of_nonneg_le (by omega) (by omega)]
    omega
  simp only [pyWriteSlice, ha, hb]
  rw [if_pos (by omega), max_eq_right (by omega)]

theorem pyWriteSlice_length {buf repl out : List ℤ} {i j : ℤ}
    (h : pyWriteSlice buf i j repl = some out) : out.length = buf.length := by
  have hi := pyIdx_le buf.length i
  have hj := pyIdx_le buf.length j
  simp only [pyWriteSlice] at h
  split at h
  · cases h
    simp only [List.length_append, List.length_take, List.length_drop]
    omega
  · split at h
    · cases h
      simp only [List.length_append, List.length_take, List.length_drop,
        List.length_replicate]
      omega
    · cases h

/-! Structure of a single chunk loop iteration. -/

theorem chunkStep_buf_length {stretch data speeds fps sr st st2 c}
    (h : chunkStep stretch data speeds fps sr st c = .ok st2) :
    st2.buf.length = st.buf.length := by
  unfold chunkStep at h
  cases hl : speeds[c.2.2]? with
  | none => rw [hl] at h; cases h
  | some sp =>
    rw [hl] at h
    by_cases h99 : sp = 99999
    · simp only [h99, ne_eq, not_true_eq_false, if_false] at h
      cases h
      rfl
    · simp only [ne_eq, h99, not_false_eq_true, if_true] at h
      split at h
      · cases h
      · rename_i buf hw
        cases h
        exact pyWriteSlice_length hw

theorem runChunks_buf_length {stretch data speeds fps sr} :
    ∀ {chunks : List (ℕ × ℕ × ℕ)} {st st2 : FAState},
    runChunks stretch data speeds fps sr st chunks = .ok st2 →
    st2.buf.length = st.buf.length := by
  intro chunks
  induction chunks with
  | nil => intro st st2 h; cases h; rfl
  | cons c rest ih =>
    intro st st2 h
    unfold runChunks at h
    cases hs : chunkStep stretch data speeds fps sr st c with
    | error e => rw [hs] at h; cases h
    | ok st1 =>
      rw [hs] at h
      rw [ih h, chunkStep_buf_length hs]

theorem chunkStep_ok_y {stretch data speeds fps sr st st2 c}
    (h : chunkStep stretch data speeds fps sr st c = .ok st2) :
    st2.y = st.y + chunkAdvance speeds fps sr c := by
  unfold chunkStep at h
  cases hl : speeds[c.2.2]? with
  | none => rw [hl] at h; cases h
  | some sp =>
    rw [hl] at h
    by_cases h99 : sp = 99999
    · simp only [h99, ne_eq, not_true_eq_false, if_false] at h
      cases h
      simp [chunkAdvance, hl, h99]
    · simp only [ne_eq, h99, not_false_eq_true, if_true] at h
      split at h
      · cases h
      · rename_i buf hw
        cases h
        simp [chunkAdvance, hl, h99]

theorem runChunks_y {stretch data speeds fps sr} :
    ∀ {chunks : List (ℕ × ℕ × ℕ)} {st st2 : FAState},
    runChunks stretch data speeds fps sr st chunks = .ok st2 →
    st2.y = st.y + sumAdvances chunks speeds fps sr := by
  intro chunks
  induction chunks with
  | nil => intro st st2 h; cases h; simp [sumAdvances]
  | cons c rest ih =>
    intro st st2 h
    unfold runChunks at h
    cases hs : chunkStep stretch data speeds fps sr st c with
    | error e => rw [hs] at h; cases h
    | ok st1 =>
      rw [hs] at h
      rw [ih h, chunkStep_ok_y hs]
      show _ = st.y + (chunkAdvance speeds fps sr c + sumAdvances rest speeds fps sr)
      rw [add_assoc]

/-- C2: a chunk whose speed-table entry is the drop sentinel 99999 leaves the
loop state untouched: no samples are written, and the write cursor after the
chunk equals the cursor before it. -/
theorem C2_drop_chunk_emits_nothing
    (stretch : List ℤ → ℚ → List ℤ) (data : List ℤ) (speeds : List ℚ)
    (fps : ℚ) (sr : ℕ) (st : FAState) (c : ℕ × ℕ × ℕ)
    (h : speeds[c.2.2]? = some 99999) :
    chunkStep stretch data speeds fps sr st c = .ok st := by
  unfold chunkStep
  rw [h]
  simp

theorem C2_witness :
    ([(99999 : ℚ)][(0 : ℕ)]? = some 99999) ∧
    chunkStep (fun l _ => l) [] [(99999 : ℚ)] 1 1 ⟨3, [1, 2]⟩ (0, 5, 0)
      = .ok ⟨3, [1, 2]⟩ :=
  ⟨by decide,
   C2_drop_chunk_emits_nothing (fun l _ => l) [] [(99999 : ℚ)] 1 1
     ⟨3, [1, 2]⟩ (0, 5, 0) (by decide)⟩

/-- C3 counterexample: for the chunk `(0,3,0)` with speed 2 at `fps = 1`,
`samplerate = 1`, the cursor advances by `int(1.5) = 1`, while
`round(1.5) = 2` under round-half-to-even; so the advance is the truncated
expected length, not the rounded one as the claim states. -/
theorem C3_counterexample :
    (chunkStep (fun _ _ => []) [7, 7, 7] [2] 1 1
        ⟨0, List.replicate 4 0⟩ (0, 3, 0)).map FAState.y = Except.ok 1
    ∧ pyRound ((((3 : ℚ) - 0) / 1 * 1) / 2) = 2 ∧ (1 : ℤ) ≠ 2 :=
  ⟨by norm_num [chunkStep, pyInt, pySlice, pyIdx, pyWriteSlice, Except.map],
   by norm_num [pyRound], by decide⟩

/-- C3 amended: for a chunk whose speed is neither unity nor the drop
sentinel, the write cursor advances by exactly
`int(((end_frame - start_frame) / fps * samplerate) / speed)` — truncation
toward zero of the analytically expected length — for every time-stretch
processor, i.e. independently of the literal length of the processor
output. -/
theorem C3_advance_is_truncated_expected
    (stretch : List ℤ → ℚ → List ℤ) (data : List ℤ) (speeds : List ℚ)
    (fps : ℚ) (sr : ℕ) (st st2 : FAState) (c : ℕ × ℕ × ℕ) (sp : ℚ)
    (hsp : speeds[c.2.2]? = some sp) (h1 : sp ≠ 1) (h99 : sp ≠ 99999)
    (hrun : chunkStep stretch data speeds fps sr st c = .ok st2) :
    st2.y = st.y + pyInt ((((c.2.1 : ℚ) - (c.1 : ℚ)) / fps * sr) / sp) := by
  rw [chunkStep_ok_y hrun]
  simp [chunkAdvance, hsp, h99]

theorem C3_witness :
    ([(2 : ℚ)][(0 : ℕ)]? = some 2) ∧ ((2 : ℚ) ≠ 1) ∧ ((2 : ℚ) ≠ 99999) ∧
    (chunkStep (fun _ _ => []) [7, 7, 7] [2] 1 1
        ⟨0, List.replicate 4 0⟩ (0, 3, 0) = .ok ⟨1, List.replicate 4 0⟩) ∧
    (FAState.y ⟨1, List.replicate 4 0⟩
      = FAState.y ⟨0, List.replicate 4 0⟩ + pyInt ((((3 : ℚ) - 0) / 1 * 1) / 2)) :=
  ⟨by decide, by decide, by decide,
   by norm_num [chunkStep, pyInt, pySlice, pyIdx, pyWriteSlice],
   C3_advance_is_truncated_expected (fun _ _ => []) [7, 7, 7] [2] 1 1
     ⟨0, List.replicate 4 0⟩ ⟨1, List.replicate 4 0⟩ (0, 3, 0) 2
     (by decide) (by decide) (by decide)
     (by norm_num [chunkStep, pyInt, pySlice, pyIdx, pyWriteSlice])⟩

/-- C4 counterexample: the schedule `[(0,10,1)]` is a single chunk whose
speed resolves to the drop sentinel (`speeds[1] = 99999`), yet `fastAudio`
completes without reporting any error (the guard tests the speed index
against 0, not the resolved speed). -/
theorem C4_counterexample :
    ([(1 : ℚ), 99999][(1 : ℕ)]? = some 99999) ∧
    fastAudio (fun l _ => l) [(0, 10, 1)] [1, 99999] 1 1 [] = .ok (1, []) :=
  ⟨by decide,
   by norm_num [fastAudio, getNewLength, newFrameLength, runChunks, chunkStep,
        pyInt, pySlice, pyIdx, pyWriteSlice]⟩

/-- C4 amended: `fastAudio` reports the fatal empty-file error, for every
source audio buffer (hence before any audio is inspected or any output is
allocated), whenever the schedule is a single chunk whose speed index is 0
(the conventional silent-speed slot), regardless of the speed value that
index resolves to. -/
theorem C4_single_index0_rejected
    (stretch : List ℤ → ℚ → List ℤ) (speeds : List ℚ) (fps : ℚ) (sr : ℕ)
    (data : List ℤ) (chunks : List (ℕ × ℕ × ℕ)) (c : ℕ × ℕ × ℕ)
    (hc : chunks = [c]) (h0 : c.2.2 = 0) :
    fastAudio stretch chunks speeds fps sr data
      = .error "Trying to create an empty file." := by
  subst hc
  unfold fastAudio
  rw [if_pos]
  exact ⟨rfl, by simp [h0]⟩

theorem C4_witness :
    (((0, 10, 0) : ℕ × ℕ × ℕ).2.2 = 0) ∧
    fastAudio (fun l _ => l) [(0, 10, 0)] [99999] 1 1 []
      = .error "Trying to create an empty file." :=
  ⟨rfl,
   C4_single_index0_rejected (fun l _ => l) [99999] 1 1 [] [(0, 10, 0)]
     (0, 10, 0) rfl rfl⟩

/-- C5 counterexample: the schedule `[(0,0,1)]` is a single chunk of zero
length (`start_frame = end_frame = 0`) with speed index 1, and `fastAudio`
does not reject it: the run completes and returns an empty output instead of
reporting a fatal error. -/
theorem C5_counterexample :
    (((0, 0, 1) : ℕ × ℕ × ℕ).1 = ((0, 0, 1) : ℕ × ℕ × ℕ).2.1) ∧
    fastAudio (fun l _ => l) [(0, 0, 1)] [99999, 1] 1 1 [] = .ok (1, []) :=
  ⟨rfl,
   by norm_num [fastAudio, getNewLength, newFrameLength, runChunks, chunkStep,
        pyInt, pySlice, pyIdx, pyWriteSlice]⟩

/-- C5 amended: a single-chunk schedule of zero length is rejected before any
buffer allocation exactly when its speed index is 0; this theorem proves the
rejection for index 0 (for every source buffer), while the counterexample
shows a zero-length single chunk with a nonzero speed index is processed
without error. -/
theorem C5_zero_length_index0_rejected
    (stretch : List ℤ → ℚ → List ℤ) (speeds : List ℚ) (fps : ℚ) (sr : ℕ)
    (data : List ℤ) (n i : ℕ) (h0 : i = 0) :
    fastAudio stretch [(n, n, i)] speeds fps sr data
      = .error "Trying to create an empty file." := by
  subst h0
  unfold fastAudio
  rw [if_pos]
  exact ⟨rfl, by simp⟩

theorem C5_witness :
    ((0 : ℕ) = 0) ∧
    fastAudio (fun l _ => l) [(5, 5, 0)] [1] 1 1 []
      = .error "Trying to create an empty file." :=
  ⟨rfl, C5_zero_length_index0_rejected (fun l _ => l) [1] 1 1 [] 5 0 rfl⟩

/-! Bounds on the cursor advances, feeding C6 and C7. -/

theorem chunkAdvance_nonneg (speeds : List ℚ) (fps : ℚ) (sr : ℕ)
    (c : ℕ × ℕ × ℕ) (hfps : 0 < fps) (hwf : c.1 ≤ c.2.1)
    (hsp : ∀ sp ∈ speeds, 0 < sp) :
    0 ≤ chunkAdvance speeds fps sr c := by
  rcases hl : speeds[c.2.2]? with _ | sp
  · simp [chunkAdvance, hl]
  · have hsp0 : 0 < sp := hsp sp (List.getElem?_mem hl)
    have hL : (0 : ℚ) ≤ (c.2.1 : ℚ) - (c.1 : ℚ) := by
      rw [sub_nonneg]
      exact_mod_cast hwf
    by_cases h99 : sp = 99999
    · simp [chunkAdvance, hl, h99]
    · simp only [chunkAdvance, hl, ne_eq, h99, not_false_eq_true, if_true]
      exact pyInt_nonneg (by positivity)

theorem sumAdvances_nonneg (chunks : List (ℕ × ℕ × ℕ)) (speeds : List ℚ)
    (fps : ℚ) (sr : ℕ) (hfps : 0 < fps)
    (hwf : ∀ c ∈ chunks, c.1 ≤ c.2.1) (hsp : ∀ sp ∈ speeds, 0 < sp) :
    0 ≤ sumAdvances chunks speeds fps sr := by
  induction chunks with
  | nil => exact le_refl 0
  | cons c rest ih =>
    have h1 := chunkAdvance_nonneg speeds fps sr c hfps (hwf c (by simp)) hsp
    have h2 := ih (fun d hd => hwf d (by simp [hd]))
    have h3 : sumAdvances (c :: rest) speeds fps sr
        = chunkAdvance speeds fps sr c + sumAdvances rest speeds fps sr := by
      simp [sumAdvances]
    omega

theorem getD_nonneg {speeds : List ℚ} (hsp : ∀ sp ∈ speeds, 0 < sp) (i : ℕ) :
    0 ≤ speeds.getD i 0 := by
  rcases hl : speeds[i]? with _ | sp
  · simp [List.getD_eq_getElem?_getD, hl]
  · have := hsp sp (List.getElem?_mem hl)
    simp only [List.getD_eq_getElem?_getD, hl, Option.getD_some]
    exact this.le

theorem newFrameLength_nonneg {chunks : List (ℕ × ℕ × ℕ)} {speeds : List ℚ}
    (hwf : ∀ c ∈ chunks, c.1 ≤ c.2.1) (hsp : ∀ sp ∈ speeds, 0 < sp) :
    0 ≤ newFrameLength chunks speeds := by
  induction chunks with
  | nil => exact le_refl 0
  | cons c rest ih =>
    have hL : (0 : ℚ) ≤ (c.2.1 : ℚ) - (c.1 : ℚ) := by
      rw [sub_nonneg]
      exact_mod_cast hwf c (by simp)
    have hd := getD_nonneg hsp c.2.2
    have h2 := ih (fun d hd => hwf d (by simp [hd]))
    have h3 : newFrameLength (c :: rest) speeds
        = (if speeds.getD c.2.2 0 ≠ 99999 then
            ((c.2.1 : ℚ) - (c.1 : ℚ)) * (1 / speeds.getD c.2.2 0)
          else 0) + newFrameLength rest speeds := by
      simp [newFrameLength]
    rw [h3]
    split
    · positivity
    · linarith

theorem sumAdvances_le_frames {chunks : List (ℕ × ℕ × ℕ)} {speeds : List ℚ}
    {fps : ℚ} {sr : ℕ} (hfps : 0 < fps)
    (hwf : ∀ c ∈ chunks, c.1 ≤ c.2.1) (hsp : ∀ sp ∈ speeds, 0 < sp) :
    (sumAdvances chunks speeds fps sr : ℚ)
      ≤ newFrameLength chunks speeds / fps * sr := by
  induction chunks with
  | nil => simp [sumAdvances, newFrameLength]
  | cons c rest ih =>
    have hrest := ih (fun d hd => hwf d (by simp [hd]))
    have hL : (0 : ℚ) ≤ (c.2.1 : ℚ) - (c.1 : ℚ) := by
      rw [sub_nonneg]
      exact_mod_cast hwf c (by simp)
    have hhead : (chunkAdvance speeds fps sr c : ℚ)
        ≤ (if speeds.getD c.2.2 0 ≠ 99999 then
            ((c.2.1 : ℚ) - (c.1 : ℚ)) * (1 / speeds.getD c.2.2 0)
          else 0) / fps * sr := by
      rcases hl : speeds[c.2.2]? with _ | sp
      · simp [chunkAdvance, hl, List.getD_eq_getElem?_getD]
      · have hsp0 : 0 < sp := hsp sp (List.getElem?_mem hl)
        by_cases h99 : sp = 99999
        · simp [chunkAdvance, hl, h99, List.getD_eq_getElem?_getD]
        · simp only [chunkAdvance, hl, ne_eq, h99, not_false_eq_true, if_true,
            List.getD_eq_getElem?_getD, Option.getD_some]
          calc (pyInt ((((c.2.1 : ℚ) - (c.1 : ℚ)) / fps * sr) / sp) : ℚ)
              ≤ (((c.2.1 : ℚ) - (c.1 : ℚ)) / fps * sr) / sp :=
                pyInt_le (by positivity)
            _ = ((c.2.1 : ℚ) - (c.1 : ℚ)) * (1 / sp) / fps * sr := by ring
    have hsum : sumAdvances (c :: rest) speeds fps sr
        = chunkAdvance speeds fps sr c + sumAdvances rest speeds fps sr := by
      simp [sumAdvances]
    have hnfl : newFrameLength (c :: rest) speeds
        = (if speeds.getD c.2.2 0 ≠ 99999 then
            ((c.2.1 : ℚ) - (c.1 : ℚ)) * (1 / speeds.getD c.2.2 0)
          else 0) + newFrameLength rest speeds := by
      simp [newFrameLength]
    have hdist : ((if speeds.getD c.2.2 0 ≠ 99999 then
          ((c.2.1 : ℚ) - (c.1 : ℚ)) * (1 / speeds.getD c.2.2 0)
        else 0) + newFrameLength rest speeds) / fps * sr
        = (if speeds.getD c.2.2 0 ≠ 99999 then
            ((c.2.1 : ℚ) - (c.1 : ℚ)) * (1 / speeds.getD c.2.2 0)
          else 0) / fps * sr
          + newFrameLength rest speeds / fps * sr := by ring
    rw [hsum, hnfl, hdist]
    push_cast
    linarith

/-- The final cursor never exceeds the pre-allocated estimate, for positive
frame rate, well-formed chunks and a positive speed table. -/
theorem sumAdvances_le_est {chunks : List (ℕ × ℕ × ℕ)} {speeds : List ℚ}
    {fps : ℚ} {sr : ℕ} (hfps : 0 < fps)
    (hwf : ∀ c ∈ chunks, c.1 ≤ c.2.1) (hsp : ∀ sp ∈ speeds, 0 < sp) :
    sumAdvances chunks speeds fps sr
      ≤ ((pyInt (getNewLength chunks speeds fps * sr * (3/2))).toNat
          + 2 * sr : ℤ) := by
  have hnl : 0 ≤ newFrameLength chunks speeds := newFrameLength_nonneg hwf hsp
  have hprod : (0 : ℚ) ≤ getNewLength chunks speeds fps * sr := by
    unfold getNewLength
    positivity
  have h1 : (sumAdvances chunks speeds fps sr : ℚ)
      ≤ getNewLength chunks speeds fps * sr := sumAdvances_le_frames hfps hwf hsp
  have h2 : sumAdvances chunks speeds fps sr
      ≤ ⌊getNewLength chunks speeds fps * sr⌋ := Int.le_floor.mpr h1
  have h3 : ⌊getNewLength chunks speeds fps * sr⌋
      ≤ ⌊getNewLength chunks speeds fps * sr * (3/2)⌋ := by
    apply Int.floor_le_floor
    nlinarith
  rw [pyInt_of_nonneg (by positivity)]
  have h4 : (0 : ℤ) ≤ ⌊getNewLength chunks speeds fps * sr * (3/2)⌋ :=
    Int.floor_nonneg.mpr (by positivity)
  omega

/-- C6: for a chunk with speed above unity (and not the drop sentinel), the
cursor advance is at most the chunk source sample count
`audioSampleEnd - audioSampleStart` as the code computes it, and differs from
that count divided by the speed by at most one sample. -/
theorem C6_speedup_advance_bounds
    (stretch : List ℤ → ℚ → List ℤ) (data : List ℤ) (speeds : List ℚ)
    (fps : ℚ) (sr : ℕ) (st st2 : FAState) (a b i : ℕ) (sp : ℚ)
    (hfps : 0 < fps) (hab : a ≤ b)
    (hsp : speeds[i]? = some sp) (h1 : 1 < sp) (h99 : sp ≠ 99999)
    (hrun : chunkStep stretch data speeds fps sr st (a, b, i) = .ok st2) :
    st2.y - st.y
        ≤ pyInt ((pyInt ((a : ℚ) / fps * sr) : ℚ)
            + ((sr : ℚ) / fps) * ((b : ℚ) - (a : ℚ)))
          - pyInt ((a : ℚ) / fps * sr)
    ∧ |((st2.y - st.y : ℤ) : ℚ)
        - ((pyInt ((pyInt ((a : ℚ) / fps * sr) : ℚ)
              + ((sr : ℚ) / fps) * ((b : ℚ) - (a : ℚ)))
            - pyInt ((a : ℚ) / fps * sr) : ℤ) : ℚ) / sp| ≤ 1 := by
  have hsp0 : (0 : ℚ) < sp := lt_trans one_pos h1
  have hL : (0 : ℚ) ≤ (b : ℚ) - (a : ℚ) := by
    rw [sub_nonneg]
    exact_mod_cast hab
  have hx0 : (0 : ℚ) ≤ ((b : ℚ) - (a : ℚ)) / fps * sr := by positivity
  have hrL : (0 : ℚ) ≤ ((sr : ℚ) / fps) * ((b : ℚ) - (a : ℚ)) := by positivity
  have haS : 0 ≤ pyInt ((a : ℚ) / fps * sr) := pyInt_nonneg (by positivity)
  have hadv : st2.y - st.y = pyInt ((((b : ℚ) - (a : ℚ)) / fps * sr) / sp) := by
    have := chunkStep_ok_y hrun
    have hA : chunkAdvance speeds fps sr (a, b, i)
        = pyInt ((((b : ℚ) - (a : ℚ)) / fps * sr) / sp) := by
      simp [chunkAdvance, hsp, h99]
    omega
  have haE : pyInt ((pyInt ((a : ℚ) / fps * sr) : ℚ)
        + ((sr : ℚ) / fps) * ((b : ℚ) - (a : ℚ)))
      - pyInt ((a : ℚ) / fps * sr)
      = ⌊((b : ℚ) - (a : ℚ)) / fps * sr⌋ := by
    rw [pyInt_int_add _ haS hrL]
    have : ((sr : ℚ) / fps) * ((b : ℚ) - (a : ℚ))
        = ((b : ℚ) - (a : ℚ)) / fps * sr := by ring
    rw [this, pyInt_of_nonneg hx0]
    omega
  set x : ℚ := ((b : ℚ) - (a : ℚ)) / fps * sr with hxdef
  have hfloor : st2.y - st.y = ⌊x / sp⌋ := by
    rw [hadv, pyInt_of_nonneg (by positivity)]
  constructor
  · rw [hfloor, haE]
    exact Int.floor_le_floor (div_le_self hx0 h1.le)
  · rw [hfloor, haE]
    rw [abs_le]
    have hfl1 : (⌊x / sp⌋ : ℚ) ≤ x / sp := Int.floor_le _
    have hfl2 : x / sp - 1 < (⌊x / sp⌋ : ℚ) := Int.sub_one_lt_floor _
    have hfl3 : (⌊x⌋ : ℚ) ≤ x := Int.floor_le _
    have hfl4 : x - 1 < (⌊x⌋ : ℚ) := Int.sub_one_lt_floor _
    have hinv : 1 / sp ≤ 1 := by
      rw [div_le_one hsp0]
      exact h1.le
    have hmono : (⌊x⌋ : ℚ) / sp ≤ x / sp := (div_le_div_right hsp0).mpr hfl3
    have hup : x / sp < ((⌊x⌋ : ℚ) + 1) / sp :=
      (div_lt_div_right hsp0).mpr (by linarith)
    have hsplit : ((⌊x⌋ : ℚ) + 1) / sp = (⌊x⌋ : ℚ) / sp + 1 / sp := add_div _ _ _
    constructor
    · linarith
    · linarith

theorem C6_witness :
    ((0 : ℚ) < 1) ∧ ((0 : ℕ) ≤ 3) ∧ ([(2 : ℚ)][(0 : ℕ)]? = some 2) ∧
    ((1 : ℚ) < 2) ∧ ((2 : ℚ) ≠ 99999) ∧
    (chunkStep (fun _ _ => []) [1, 2, 3] [2] 1 1 ⟨0, List.replicate 4 0⟩
        (0, 3, 0) = .ok ⟨1, List.replicate 4 0⟩) ∧
    ((FAState.y ⟨1, List.replicate 4 0⟩ - FAState.y ⟨0, List.replicate 4 0⟩
        ≤ pyInt ((pyInt (((0 : ℕ) : ℚ) / 1 * ((1 : ℕ) : ℚ)) : ℚ)
            + (((1 : ℕ) : ℚ) / 1) * (((3 : ℕ) : ℚ) - ((0 : ℕ) : ℚ)))
          - pyInt (((0 : ℕ) : ℚ) / 1 * ((1 : ℕ) : ℚ)))
      ∧ |((FAState.y ⟨1, List.replicate 4 0⟩
            - FAState.y ⟨0, List.replicate 4 0⟩ : ℤ) : ℚ)
          - ((pyInt ((pyInt (((0 : ℕ) : ℚ) / 1 * ((1 : ℕ) : ℚ)) : ℚ)
                + (((1 : ℕ) : ℚ) / 1) * (((3 : ℕ) : ℚ) - ((0 : ℕ) : ℚ)))
              - pyInt (((0 : ℕ) : ℚ) / 1 * ((1 : ℕ) : ℚ)) : ℤ) : ℚ) / 2| ≤ 1) :=
  ⟨by norm_num, by decide, by decide, by norm_num, by decide,
   by norm_num [chunkStep, pyInt, pySlice, pyIdx, pyWriteSlice],
   C6_speedup_advance_bounds (fun _ _ => []) [1, 2, 3] [2] 1 1
     ⟨0, List.replicate 4 0⟩ ⟨1, List.replicate 4 0⟩ 0 3 0 2
     (by norm_num) (by decide) (by decide) (by norm_num) (by decide)
     (by norm_num [chunkStep, pyInt, pySlice, pyIdx, pyWriteSlice])⟩

/-! Dissection of a successful `fastAudio` run. -/

theorem fastAudio_ok_parts {stretch chunks speeds fps sr data out}
    (hrun : fastAudio stretch chunks speeds fps sr data = .ok out) :
    ∃ st, runChunks stretch data speeds fps sr
        ⟨0, List.replicate
          ((pyInt (getNewLength chunks speeds fps * sr * (3/2))).toNat
            + 2 * sr) 0⟩ chunks = .ok st
      ∧ out = (sr, pySlice st.buf 0 st.y) := by
  unfold fastAudio at hrun
  split at hrun
  · cases hrun
  · simp only [] at hrun
    split at hrun
    · cases hrun
    · rename_i st hR
      cases hrun
      exact ⟨st, hR, rfl⟩

theorem fastAudio_ok_length {stretch chunks speeds fps sr data out}
    (hrun : fastAudio stretch chunks speeds fps sr data = .ok out) :
    out.1 = sr ∧ out.2.length
      = pyIdx ((pyInt (getNewLength chunks speeds fps * sr * (3/2))).toNat
          + 2 * sr) (sumAdvances chunks speeds fps sr) := by
  obtain ⟨st, hR, hout⟩ := fastAudio_ok_parts hrun
  subst hout
  refine ⟨rfl, ?_⟩
  have hblen : st.buf.length
      = (pyInt (getNewLength chunks speeds fps * sr * (3/2))).toNat + 2 * sr := by
    rw [runChunks_buf_length hR]
    simp
  have hy : st.y = sumAdvances chunks speeds fps sr := by
    have := runChunks_y hR
    simpa using this
  rw [pySlice_length, hblen, hy, pyIdx_zero]
  omega

/-- C7: a successful `fastAudio` run returns the source sample rate together
with the output buffer truncated to exactly the final write cursor, whose
length is the sum over all non-dropped chunks of the per-chunk cursor
advances. -/
theorem C7_output_truncated_to_cursor_sum
    (stretch : List ℤ → ℚ → List ℤ) (chunks : List (ℕ × ℕ × ℕ))
    (speeds : List ℚ) (fps : ℚ) (sr : ℕ) (data : List ℤ)
    (out : ℕ × List ℤ)
    (hfps : 0 < fps)
    (hwf : ∀ c ∈ chunks, c.1 ≤ c.2.1)
    (hsp : ∀ sp ∈ speeds, 0 < sp)
    (hrun : fastAudio stretch chunks speeds fps sr data = .ok out) :
    out.1 = sr ∧ (out.2.length : ℤ) = sumAdvances chunks speeds fps sr := by
  obtain ⟨hsr, hlen⟩ := fastAudio_ok_length hrun
  refine ⟨hsr, ?_⟩
  rw [hlen]
  have h0 : 0 ≤ sumAdvances chunks speeds fps sr :=
    sumAdvances_nonneg chunks speeds fps sr hfps hwf hsp
  have h1 : sumAdvances chunks speeds fps sr
      ≤ ((pyInt (getNewLength chunks speeds fps * sr * (3/2))).toNat
          + 2 * sr : ℤ) := sumAdvances_le_est hfps hwf hsp
  rw [pyIdx_of_nonneg_le h0 (by exact_mod_cast h1)]
  rw [Int.toNat_of_nonneg h0]

theorem C7_witness :
    ((0 : ℚ) < 1) ∧
    (∀ c ∈ [((0 : ℕ), (1 : ℕ), (0 : ℕ)), (1, 2, 1)], c.1 ≤ c.2.1) ∧
    (∀ sp ∈ [(1 : ℚ), 2], 0 < sp) ∧
    (fastAudio (fun l _ => l) [(0, 1, 0), (1, 2, 1)] [1, 2] 1 2 [1, 2, 3, 4]
      = .ok (2, [1, 2, 3])) ∧
    ((2, ([1, 2, 3] : List ℤ)).1 = 2 ∧
      (((2, ([1, 2, 3] : List ℤ)).2.length : ℤ)
        = sumAdvances [(0, 1, 0), (1, 2, 1)] [1, 2] 1 2)) :=
  ⟨by norm_num, by decide, by norm_num,
   by norm_num [fastAudio, getNewLength, newFrameLength, runChunks, chunkStep,
        pyInt, pySlice, pyIdx, pyWriteSlice] <;> decide,
   C7_output_truncated_to_cursor_sum (fun l _ => l) [(0, 1, 0), (1, 2, 1)]
     [1, 2] 1 2 [1, 2, 3, 4] (2, [1, 2, 3]) (by norm_num) (by decide)
     (by norm_num)
     (by norm_num [fastAudio, getNewLength, newFrameLength, runChunks,
          chunkStep, pyInt, pySlice, pyIdx, pyWriteSlice] <;> decide)⟩

/-- C9: the length of the output buffer of a successful run depends only on
the chunk schedule, the speed table, the frame rate and the sample rate: two
successful runs differing only in the PCM sample contents return output
buffers of equal length. -/
theorem C9_length_independent_of_samples
    (stretch : List ℤ → ℚ → List ℤ) (chunks : List (ℕ × ℕ × ℕ))
    (speeds : List ℚ) (fps : ℚ) (sr : ℕ) (data1 data2 : List ℤ)
    (out1 out2 : ℕ × List ℤ)
    (h1 : fastAudio stretch chunks speeds fps sr data1 = .ok out1)
    (h2 : fastAudio stretch chunks speeds fps sr data2 = .ok out2) :
    out1.2.length = out2.2.length := by
  rw [(fastAudio_ok_length h1).2, (fastAudio_ok_length h2).2]

theorem C9_witness :
    (fastAudio (fun l _ => l) [(0, 1, 0), (1, 2, 0)] [1] 1 2 [5, 6, 9, 9]
      = .ok (2, [5, 6, 9, 9])) ∧
    (fastAudio (fun l _ => l) [(0, 1, 0), (1, 2, 0)] [1] 1 2 [7, 8, 1, 2]
      = .ok (2, [7, 8, 1, 2])) ∧
    ((2, ([5, 6, 9, 9] : List ℤ)).2.length = (2, ([7, 8, 1, 2] : List ℤ)).2.length) :=
  ⟨by norm_num [fastAudio, getNewLength, newFrameLength, runChunks, chunkStep,
       pyInt, pySlice, pyIdx, pyWriteSlice] <;> decide,
   by norm_num [fastAudio, getNewLength, newFrameLength, runChunks, chunkStep,
       pyInt, pySlice, pyIdx, pyWriteSlice] <;> decide,
   C9_length_independent_of_samples (fun l _ => l) [(0, 1, 0), (1, 2, 0)] [1]
     1 2 [5, 6, 9, 9] [7, 8, 1, 2] (2, [5, 6, 9, 9]) (2, [7, 8, 1, 2])
     (by norm_num [fastAudio, getNewLength, newFrameLength, runChunks,
          chunkStep, pyInt, pySlice, pyIdx, pyWriteSlice] <;> decide)
     (by norm_num [fastAudio, getNewLength, newFrameLength, runChunks,
          chunkStep, pyInt, pySlice, pyIdx, pyWriteSlice] <;> decide)⟩

theorem runChunks_cons_ok {stretch data speeds fps sr st st1 c rest}
    (h1 : chunkStep stretch data speeds fps sr st c = .ok st1) :
    runChunks stretch data speeds fps sr st (c :: rest)
      = runChunks stretch data speeds fps sr st1 rest := by
  conv_lhs => unfold runChunks
  rw [h1]

/-- A unity-speed chunk whose source sample range starts exactly at the
write cursor copies that range verbatim into the buffer and advances the
cursor by the converted chunk length. -/
theorem chunkStep_unity_aligned
    (stretch : List ℤ → ℚ → List ℤ) (data : List ℤ) (speeds : List ℚ)
    (fps : ℚ) (sr : ℕ) (buf : List ℤ) (y : ℤ) (k : ℕ) (a b idx : ℕ)
    (hsp : speeds[idx]? = some 1) (hy0 : 0 ≤ y)
    (haS : pyInt ((a : ℚ) / fps * sr) = y)
    (hadv : pyInt (((b : ℚ) - (a : ℚ)) / fps * sr) = (k : ℤ))
    (hrL0 : 0 ≤ ((sr : ℚ) / fps) * ((b : ℚ) - (a : ℚ)))
    (hdata : y.toNat + k ≤ data.length)
    (hym : y.toNat + k ≤ buf.length)
    (hpre : buf.take y.toNat = data.take y.toNat) :
    chunkStep stretch data speeds fps sr ⟨y, buf⟩ (a, b, idx)
      = .ok ⟨y + k, data.take (y.toNat + k) ++ buf.drop (y.toNat + k)⟩ := by
  have hswap : ((sr : ℚ) / fps) * ((b : ℚ) - (a : ℚ))
      = ((b : ℚ) - (a : ℚ)) / fps * sr := by ring
  have haE : pyInt ((y : ℚ) + ((sr : ℚ) / fps) * ((b : ℚ) - (a : ℚ)))
      = y + k := by
    rw [pyInt_int_add _ hy0 hrL0, hswap, hadv]
  have hidx1 : pyIdx data.length y = y.toNat :=
    pyIdx_of_nonneg_le hy0 (by omega)
  have hidx2 : pyIdx data.length (y + (k : ℤ)) = y.toNat + k := by
    rw [pyIdx_of_nonneg_le (by omega) (by omega)]
    omega
  have hslice : pySlice data y (y + (k : ℤ))
      = (data.take (y.toNat + k)).drop y.toNat := by
    rw [pySlice, hidx1, hidx2]
  have hslen : (pySlice data y (y + (k : ℤ))).length = k := by
    rw [hslice]
    simp only [List.length_drop, List.length_take]
    omega
  have hconcat : buf.take y.toNat ++ pySlice data y (y + (k : ℤ))
      = data.take (y.toNat + k) := by
    rw [hslice, hpre]
    have h1 : data.take y.toNat = (data.take (y.toNat + k)).take y.toNat := by
      rw [List.take_take, min_eq_left (by omega)]
    rw [h1, List.take_append_drop]
  have hwr := @pyWriteSlice_exact buf (pySlice data y (y + (k : ℤ))) y hy0
    (by rw [hslen]; exact hym)
  rw [hslen] at hwr
  unfold chunkStep
  simp only [hsp]
  norm_num
  rw [haS, haE, hslen, hwr]
  rw [hadv]
  rw [hconcat]

/-- Running the loop over the two-chunk unity schedule
`[(0,10,i),(10,20,i)]` copies the first `2 * int(10/fps*samplerate)` source
samples contiguously and leaves the cursor there. -/
theorem runChunks_two_unity
    (stretch : List ℤ → ℚ → List ℤ) (data : List ℤ) (speeds : List ℚ)
    (fps : ℚ) (sr : ℕ) (i : ℕ) (est : ℕ)
    (hfps : 0 < fps) (hsp : speeds[i]? = some 1)
    (hlen : 2 * (pyInt ((10 : ℚ) / fps * sr)).toNat ≤ data.length)
    (hest : 2 * (pyInt ((10 : ℚ) / fps * sr)).toNat ≤ est) :
    runChunks stretch data speeds fps sr ⟨0, List.replicate est 0⟩
        [(0, 10, i), (10, 20, i)]
      = .ok ⟨((2 * (pyInt ((10 : ℚ) / fps * sr)).toNat : ℕ) : ℤ),
             data.take (2 * (pyInt ((10 : ℚ) / fps * sr)).toNat)
               ++ List.replicate (est - 2 * (pyInt ((10 : ℚ) / fps * sr)).toNat) 0⟩ := by
  have hx0 : (0 : ℚ) ≤ (10 : ℚ) / fps * sr := by positivity
  have hE0 : 0 ≤ pyInt ((10 : ℚ) / fps * sr) := pyInt_nonneg hx0
  set e : ℕ := (pyInt ((10 : ℚ) / fps * sr)).toNat with he
  have heE : (e : ℤ) = pyInt ((10 : ℚ) / fps * sr) := Int.toNat_of_nonneg hE0
  -- first chunk (0, 10, i)
  have haS1 : pyInt (((0 : ℕ) : ℚ) / fps * sr) = (0 : ℤ) := by
    norm_num [pyInt]
  have hadv1 : pyInt ((((10 : ℕ) : ℚ) - ((0 : ℕ) : ℚ)) / fps * sr) = (e : ℤ) := by
    have harg : (((10 : ℕ) : ℚ) - ((0 : ℕ) : ℚ)) / fps * sr
        = (10 : ℚ) / fps * sr := by norm_num
    rw [harg, heE]
  have hrL1 : (0 : ℚ) ≤ ((sr : ℚ) / fps) * (((10 : ℕ) : ℚ) - ((0 : ℕ) : ℚ)) := by
    have h10 : ((10 : ℕ) : ℚ) - ((0 : ℕ) : ℚ) = 10 := by norm_num
    rw [h10]
    positivity
  have hstep1 := chunkStep_unity_aligned stretch data speeds fps sr
    (List.replicate est 0) 0 e 0 10 i hsp (le_refl 0) haS1 hadv1 hrL1
    (by simp only [Int.toNat_zero]; omega)
    (by simp only [Int.toNat_zero, List.length_replicate]; omega)
    (by simp)
  simp only [Int.toNat_zero, zero_add, List.drop_replicate, Nat.zero_add] at hstep1
  -- second chunk (10, 20, i)
  have haS2 : pyInt (((10 : ℕ) : ℚ) / fps * sr) = ((e : ℕ) : ℤ) := by
    have h10 : ((10 : ℕ) : ℚ) = (10 : ℚ) := by norm_num
    rw [h10, heE]
  have hadv2 : pyInt ((((20 : ℕ) : ℚ) - ((10 : ℕ) : ℚ)) / fps * sr) = (e : ℤ) := by
    have harg : (((20 : ℕ) : ℚ) - ((10 : ℕ) : ℚ)) / fps * sr
        = (10 : ℚ) / fps * sr := by norm_num
    rw [harg, heE]
  have hrL2 : (0 : ℚ) ≤ ((sr : ℚ) / fps) * (((20 : ℕ) : ℚ) - ((10 : ℕ) : ℚ)) := by
    have h10 : ((20 : ℕ) : ℚ) - ((10 : ℕ) : ℚ) = 10 := by norm_num
    rw [h10]
    positivity
  have htke : (data.take e).length = e := by
    simp only [List.length_take]
    omega
  have hbuf1len : (data.take e ++ List.replicate (est - e) 0).length = est := by
    simp only [List.length_append, List.length_replicate, htke]
    omega
  have hstep2 := chunkStep_unity_aligned stretch data speeds fps sr
    (data.take e ++ List.replicate (est - e) 0) ((e : ℕ) : ℤ) e 10 20 i hsp
    (by positivity) haS2 hadv2 hrL2
    (by simp only [Int.toNat_natCast]; omega)
    (by rw [hbuf1len]; simp only [Int.toNat_natCast]; omega)
    (by
      simp only [Int.toNat_natCast]
      exact List.take_left' htke)
  simp only [Int.toNat_natCast] at hstep2
  have hdrop : (data.take e ++ List.replicate (est - e) 0).drop (e + e)
      = List.replicate (est - (e + e)) 0 := by
    rw [List.drop_append_eq_append_drop]
    have h1 : (data.take e).drop (e + e) = [] := by
      apply List.drop_eq_nil_of_le
      rw [htke]
      omega
    rw [h1, htke, List.drop_replicate, List.nil_append]
    congr 1
    omega
  rw [hdrop] at hstep2
  -- assemble
  rw [runChunks_cons_ok hstep1, runChunks_cons_ok hstep2]
  have h2 : 2 * e = e + e := by omega
  rw [h2]
  simp only [runChunks, Nat.cast_add]

/-- C1 amended: for the two-chunk unity schedule `[(0,10,i),(10,20,i)]`,
`fastAudio` returns the source sample rate and exactly the first
`2 * int(10 / fps * samplerate)` source samples, concatenated in order (the
two per-chunk sample ranges back to back), for every frame rate `fps > 0`,
sample rate, and source buffer holding at least that many samples.  As the
counterexample shows, this prefix can be one sample shorter than the sample
range the same conversion assigns to the frame range `[0,20)`, so the output
is not always byte-for-byte the `[0,20)` range. -/
theorem C1_two_unity_chunks_concat
    (stretch : List ℤ → ℚ → List ℤ) (speeds : List ℚ) (fps : ℚ) (sr : ℕ)
    (data : List ℤ) (i : ℕ)
    (hfps : 0 < fps) (hsp : speeds[i]? = some 1)
    (hlen : 2 * (pyInt ((10 : ℚ) / fps * sr)).toNat ≤ data.length) :
    fastAudio stretch [(0, 10, i), (10, 20, i)] speeds fps sr data
      = .ok (sr, data.take (2 * (pyInt ((10 : ℚ) / fps * sr)).toNat)) := by
  have hx0 : (0 : ℚ) ≤ (10 : ℚ) / fps * sr := by positivity
  have hE0 : 0 ≤ pyInt ((10 : ℚ) / fps * sr) := pyInt_nonneg hx0
  set e : ℕ := (pyInt ((10 : ℚ) / fps * sr)).toNat with he
  have heE : (e : ℤ) = pyInt ((10 : ℚ) / fps * sr) := Int.toNat_of_nonneg hE0
  have hnfl : newFrameLength [(0, 10, i), (10, 20, i)] speeds = 20 := by
    norm_num [newFrameLength, hsp]
  have hestArg : getNewLength [(0, 10, i), (10, 20, i)] speeds fps * sr * (3/2)
      = 3 * ((10 : ℚ) / fps * sr) := by
    rw [getNewLength, hnfl]
    ring
  have h2E : ((2 * e : ℕ) : ℤ) ≤ pyInt (3 * ((10 : ℚ) / fps * sr)) := by
    rw [pyInt_of_nonneg (by positivity)]
    refine Int.le_floor.mpr ?_
    have h1 : (pyInt ((10 : ℚ) / fps * sr) : ℚ) ≤ (10 : ℚ) / fps * sr :=
      pyInt_le hx0
    have h2 : ((e : ℕ) : ℚ) = ((pyInt ((10 : ℚ) / fps * sr) : ℤ) : ℚ) := by
      exact_mod_cast congrArg (fun z : ℤ => (z : ℚ)) heE
    push_cast
    push_cast at h2
    linarith
  have h2e_est : 2 * e
      ≤ (pyInt (getNewLength [(0, 10, i), (10, 20, i)] speeds fps * sr
          * (3/2))).toNat + 2 * sr := by
    rw [hestArg]
    omega
  have hrun := runChunks_two_unity stretch data speeds fps sr i
    ((pyInt (getNewLength [(0, 10, i), (10, 20, i)] speeds fps * sr
        * (3/2))).toNat + 2 * sr)
    hfps hsp hlen h2e_est
  have htk2 : (data.take (2 * e)).length = 2 * e := by
    simp only [List.length_take]
    omega
  unfold fastAudio
  rw [if_neg (by norm_num)]
  simp only []
  rw [hrun]
  have hBlen : (data.take (2 * e)
      ++ List.replicate
        ((pyInt (getNewLength [(0, 10, i), (10, 20, i)] speeds fps * sr
          * (3/2))).toNat + 2 * sr - 2 * e) 0).length
      = (pyInt (getNewLength [(0, 10, i), (10, 20, i)] speeds fps * sr
          * (3/2))).toNat + 2 * sr := by
    simp only [List.length_append, List.length_replicate, htk2]
    omega
  show Except.ok (sr, pySlice _ 0 ((2 * e : ℕ) : ℤ)) = _
  rw [pySlice_zero _ _ (by positivity) (by rw [hBlen]; exact_mod_cast h2e_est)]
  rw [Int.toNat_natCast]
  rw [List.take_left' htk2]

/-- C1 counterexample: at `fps = 4`, `samplerate = 1`, source
`[0,1,2,3,4]`, the two-chunk unity schedule `[(0,10,0),(10,20,0)]` yields
the 4-sample output `[0,1,2,3]`, while the sample range of frames `[0,20)`
under the engine conversion (`int(0/fps*sr)` to
`int(start + (sr/fps)*20)`) is all five samples `[0,1,2,3,4]`: the
reconstructed output is not byte-for-byte the `[0,20)` sample range. -/
theorem C1_counterexample :
    (fastAudio (fun l _ => l) [(0, 10, 0), (10, 20, 0)] [1] 4 1 [0, 1, 2, 3, 4]
      = .ok (1, [0, 1, 2, 3]))
    ∧ pySlice ([0, 1, 2, 3, 4] : List ℤ) (pyInt ((0 : ℚ) / 4 * 1))
        (pyInt ((pyInt ((0 : ℚ) / 4 * 1) : ℚ) + ((1 : ℚ) / 4) * ((20 : ℚ) - 0)))
      = [0, 1, 2, 3, 4]
    ∧ ([0, 1, 2, 3] : List ℤ) ≠ [0, 1, 2, 3, 4] := by
  refine ⟨?_, ?_, by decide⟩
  · norm_num [fastAudio, getNewLength, newFrameLength, runChunks, chunkStep,
      pyInt, pySlice, pyIdx, pyWriteSlice]
    decide
  · norm_num [pySlice, pyIdx, pyInt]

theorem C1_witness :
    ((0 : ℚ) < 1) ∧ ([(1 : ℚ)][(0 : ℕ)]? = some 1) ∧
    (2 * (pyInt ((10 : ℚ) / 1 * ((2 : ℕ) : ℚ))).toNat
      ≤ ((List.range 40).map Int.ofNat).length) ∧
    (fastAudio (fun l _ => l) [(0, 10, 0), (10, 20, 0)] [1] 1 2
        ((List.range 40).map Int.ofNat)
      = .ok (2, ((List.range 40).map Int.ofNat).take
          (2 * (pyInt ((10 : ℚ) / 1 * ((2 : ℕ) : ℚ))).toNat))) :=
  ⟨by norm_num, by decide, by norm_num [pyInt] <;> decide,
   C1_two_unity_chunks_concat (fun l _ => l) [1] 1 2
     ((List.range 40).map Int.ofNat) 0
     (by norm_num) (by decide) (by norm_num [pyInt] <;> decide)⟩

/-! FCP7 timebase encoding (formats/fcp7.py lines 89-115).  The XML strings
TRUE/FALSE of `set_tb_ntsc` are modelled as the booleans that `read_tb_ntsc`
receives back. -/

def set_tb_ntsc (tb : ℚ) : ℤ × Bool :=
  if tb = (24000 : ℚ) / 1001 then (24, true)
  else if tb = (30000 : ℚ) / 1001 then (30, true)
  else if tb = (60000 : ℚ) / 1001 then (60, true)
  else
    let ctb := ⌈tb⌉
    if ¬(ctb = 24 ∨ ctb = 30 ∨ ctb = 60) ∧ (ctb : ℚ) * (999 / 1000) = tb then
      (ctb, true)
    else
      (pyInt tb, false)

def read_tb_ntsc (tb : ℤ) (ntsc : Bool) : ℚ :=
  if ntsc then
    if tb = 24 then (24000 : ℚ) / 1001
    else if tb = 30 then (30000 : ℚ) / 1001
    else if tb = 60 then (60000 : ℚ) / 1001
    else (tb : ℚ) * (999 / 1000)
  else (tb : ℚ)

theorem intCast_ne_ntsc (n : ℤ) (a : ℕ) (h1001 : ¬((1001 : ℤ) ∣ (a : ℤ))) :
    (n : ℚ) ≠ (a : ℚ) / 1001 := by
  intro h
  have h2 : (n : ℚ) * 1001 = (a : ℚ) := by
    rw [h]
    field_simp
  have h3 : n * 1001 = (a : ℤ) := by exact_mod_cast h2
  exact h1001 ⟨n, by linarith⟩

/-- C10: the FCP7 timebase encoding round-trips: decoding the
(timebase, ntsc) pair produced by `set_tb_ntsc` returns the original
timebase, for each of the three NTSC rates 24000/1001, 30000/1001,
60000/1001 and for every integer timebase. -/
theorem C10_tb_ntsc_roundtrip :
    read_tb_ntsc (set_tb_ntsc ((24000 : ℚ) / 1001)).1
        (set_tb_ntsc ((24000 : ℚ) / 1001)).2 = (24000 : ℚ) / 1001 ∧
    read_tb_ntsc (set_tb_ntsc ((30000 : ℚ) / 1001)).1
        (set_tb_ntsc ((30000 : ℚ) / 1001)).2 = (30000 : ℚ) / 1001 ∧
    read_tb_ntsc (set_tb_ntsc ((60000 : ℚ) / 1001)).1
        (set_tb_ntsc ((60000 : ℚ) / 1001)).2 = (60000 : ℚ) / 1001 ∧
    ∀ n : ℤ, read_tb_ntsc (set_tb_ntsc (n : ℚ)).1 (set_tb_ntsc (n : ℚ)).2
        = (n : ℚ) := by
  refine ⟨?_, ?_, ?_, ?_⟩
  · norm_num [set_tb_ntsc, read_tb_ntsc]
  · norm_num [set_tb_ntsc, read_tb_ntsc]
  · norm_num [set_tb_ntsc, read_tb_ntsc]
  · intro n
    have h24 : (n : ℚ) ≠ (24000 : ℚ) / 1001 := by
      have := intCast_ne_ntsc n 24000 (by decide)
      simpa using this
    have h30 : (n : ℚ) ≠ (30000 : ℚ) / 1001 := by
      have := intCast_ne_ntsc n 30000 (by decide)
      simpa using this
    have h60 : (n : ℚ) ≠ (60000 : ℚ) / 1001 := by
      have := intCast_ne_ntsc n 60000 (by decide)
      simpa using this
    have hceil : ⌈(n : ℚ)⌉ = n := Int.ceil_intCast n
    unfold set_tb_ntsc
    rw [if_neg h24, if_neg h30, if_neg h60]
    simp only [hceil]
    by_cases hn : n = 0
    · subst hn
      norm_num [read_tb_ntsc]
    · have hcond : ¬(¬((n : ℤ) = 24 ∨ n = 30 ∨ n = 60)
          ∧ (n : ℚ) * (999 / 1000) = (n : ℚ)) := by
        rintro ⟨-, hb⟩
        apply hn
        field_simp at hb
        rcases hb with hb | hb
        · norm_num at hb
        · exact_mod_cast hb
      rw [if_neg hcond]
      simp [read_tb_ntsc, pyInt_intCast]

/-! Timeline data model (timeline.py lines 32-75).  `Visual` is the clip
union of the video layers: `video` models `VideoObj` (the speed-bearing kind,
with the fields the aggregate reads: start, dur, speed), `graphic` models the
non-speed-bearing visual objects (TextObj, ImageObj, RectangleObj,
EllipseObj) through their shared start and dur fields.  Sources
(`FileInfo`) are external and not read by the aggregate, so they are
omitted. -/

inductive Visual where
  | video (start : ℕ) (dur : ℕ) (speed : ℚ)
  | graphic (start : ℕ) (dur : ℕ)
deriving DecidableEq

structure AudioObj where
  start : ℕ
  dur : ℕ
  speed : ℚ
deriving DecidableEq

structure Timeline where
  timebase : ℚ
  samplerate : ℕ
  res : ℕ × ℕ
  background : String
  v : List (List Visual)
  a : List (List AudioObj)
  chunks : Option (List (ℕ × ℕ × ℕ))

/-- The `end` property of `Timeline` (timeline.py lines 43-58): a running
maximum over the video layers and then the audio layers of the last clip of
each nonempty layer, where a `VideoObj` contributes
`max(1, round(start + dur/speed))`, any other visual contributes
`start + dur`, and an audio clip contributes
`max(1, round(start + dur/speed))`. -/
def Timeline.«end» (t : Timeline) : ℤ :=
  let e1 := t.v.foldl (fun e layer =>
    match layer.getLast? with
    | none => e
    | some (Visual.video s d sp) => max e (max 1 (pyRound ((s : ℚ) + (d : ℚ) / sp)))
    | some (Visual.graphic s d) => max e ((s : ℤ) + (d : ℤ))) 0
  t.a.foldl (fun e layer =>
    match layer.getLast? with
    | none => e
    | some a => max e (max 1 (pyRound ((a.start : ℚ) + (a.dur : ℚ) / a.speed)))) e1

/-- The finish position of the last clip of a layer under a finish function,
an empty layer contributing zero. -/
def layerEndD {α : Type} (f : α → ℤ) (layer : List α) : ℤ :=
  ((layer.getLast?).map f).getD 0

/-- Finish position of a visual clip exactly as claim C8 words it:
`round(start + dur/speed)` for the speed-bearing (video) kind and
`start + dur` otherwise, with no clamping. -/
def vFinishClaim : Visual → ℤ
  | .video s d sp => pyRound ((s : ℚ) + (d : ℚ) / sp)
  | .graphic s d => (s : ℤ) + (d : ℤ)

/-- Finish position of an audio clip as claim C8 words it for speed-bearing
clips, with no clamping. -/
def aFinishClaim (a : AudioObj) : ℤ :=
  pyRound ((a.start : ℚ) + (a.dur : ℚ) / a.speed)

/-- The timeline end as claim C8 states it: the maximum over all video and
audio layers of the last clip finish, empty layers contributing zero. -/
def specEndClaim (t : Timeline) : ℤ :=
  max ((t.v.map (layerEndD vFinishClaim)).foldr max 0)
      ((t.a.map (layerEndD aFinishClaim)).foldr max 0)

/-- Finish position of a visual clip as the code computes it: the
speed-bearing contribution is clamped below by one frame. -/
def vFinishAmended : Visual → ℤ
  | .video s d sp => max 1 (pyRound ((s : ℚ) + (d : ℚ) / sp))
  | .graphic s d => (s : ℤ) + (d : ℤ)

/-- Finish position of an audio clip as the code computes it, clamped below
by one frame. -/
def aFinishAmended (a : AudioObj) : ℤ :=
  max 1 (pyRound ((a.start : ℚ) + (a.dur : ℚ) / a.speed))

/-- The timeline end with the clamped finish positions. -/
def specEndAmended (t : Timeline) : ℤ :=
  max ((t.v.map (layerEndD vFinishAmended)).foldr max 0)
      ((t.a.map (layerEndD aFinishAmended)).foldr max 0)

theorem foldr_max_zero_nonneg : ∀ l : List ℤ, 0 ≤ l.foldr max 0
  | [] => le_refl 0
  | x :: xs => le_trans (foldr_max_zero_nonneg xs) (le_max_right x _)

theorem foldl_congr_fun {α β : Type} (f g : β → α → β)
    (h : ∀ b a, f b a = g b a) :
    ∀ (l : List α) (b : β), List.foldl f b l = List.foldl g b l := by
  intro l
  induction l with
  | nil => intro b; rfl
  | cons x xs ih => intro b; rw [List.foldl_cons, List.foldl_cons, h, ih]

/-- One step of the layer loops of `Timeline.end`: skip an empty layer,
otherwise max in the finish of its last clip. -/
def layerFold {α : Type} (f : α → ℤ) (e : ℤ) (layer : List α) : ℤ :=
  match layer.getLast? with
  | none => e
  | some c => max e (f c)

theorem foldl_layer_max {α : Type} (f : α → ℤ) :
    ∀ (l : List (List α)) (init : ℤ), 0 ≤ init →
    l.foldl (layerFold f) init
    = max init ((l.map (layerEndD f)).foldr max 0) := by
  intro l
  induction l with
  | nil =>
    intro init h0
    simp [max_eq_left h0]
  | cons layer rest ih =>
    intro init h0
    rw [List.foldl_cons, List.map_cons, List.foldr_cons]
    cases hl : layer.getLast? with
    | none =>
      have h1 : layerEndD f layer = 0 := by simp [layerEndD, hl]
      have h2 : layerFold f init layer = init := by simp [layerFold, hl]
      rw [h1, h2, ih init h0]
      rw [max_eq_right (foldr_max_zero_nonneg _)]
    | some c =>
      have h1 : layerEndD f layer = f c := by simp [layerEndD, hl]
      have h2 : layerFold f init layer = max init (f c) := by simp [layerFold, hl]
      rw [h1, h2, ih (max init (f c)) (le_trans h0 (le_max_left _ _))]
      rw [max_assoc]

/-- C8 counterexample: the timeline with one video layer holding the single
clip `VideoObj(start=0, dur=0, speed=1)` has `end = 1` (the code clamps the
speed-bearing finish to at least one frame), while the maximum of the claim
finish positions is `round(0 + 0/1) = 0`. -/
theorem C8_counterexample :
    Timeline.«end» ⟨30, 48000, (1920, 1080), "#000", [[Visual.video 0 0 1]],
        [], none⟩ = 1
    ∧ specEndClaim ⟨30, 48000, (1920, 1080), "#000", [[Visual.video 0 0 1]],
        [], none⟩ = 0
    ∧ (1 : ℤ) ≠ 0 := by
  refine ⟨?_, ?_, by decide⟩
  · norm_num [Timeline.«end», pyRound]
  · norm_num [specEndClaim, layerEndD, vFinishClaim, pyRound]

/-- C8 amended: for every timeline, `end` equals the maximum over all video
and audio layers of the last clip finish position, where a speed-bearing
clip (video object or audio clip) finishes at
`max(1, round(start + dur/speed))` — clamped below by one frame — and a
non-speed-bearing visual finishes at `start + dur`, empty layers
contributing zero. -/
theorem C8_end_max_of_clamped_finishes (t : Timeline) :
    Timeline.«end» t = specEndAmended t := by
  unfold Timeline.«end» specEndAmended
  have hv : t.v.foldl (fun e layer =>
      match layer.getLast? with
      | none => e
      | some (Visual.video s d sp) =>
        max e (max 1 (pyRound ((s : ℚ) + (d : ℚ) / sp)))
      | some (Visual.graphic s d) => max e ((s : ℤ) + (d : ℤ))) 0
      = t.v.foldl (layerFold vFinishAmended) 0 := by
    apply foldl_congr_fun
    intro b layer
    unfold layerFold
    cases layer.getLast? with
    | none => rfl
    | some c => cases c <;> rfl
  have ha : ∀ init : ℤ, t.a.foldl (fun e layer =>
      match layer.getLast? with
      | none => e
      | some a => max e (max 1 (pyRound ((a.start : ℚ) + (a.dur : ℚ) / a.speed))))
        init
      = t.a.foldl (layerFold aFinishAmended) init := by
    intro init
    apply foldl_congr_fun
    intro b layer
    unfold layerFold
    cases layer.getLast? with
    | none => rfl
    | some c => rfl
  rw [hv, ha, foldl_layer_max vFinishAmended t.v 0 (le_refl 0)]
  rw [foldl_layer_max aFinishAmended t.a _ (le_trans (foldr_max_zero_nonneg _)
    (le_max_right 0 _))]
  rw [max_eq_right (foldr_max_zero_nonneg _)]

end AutoEditor
